import Mathlib

/-!
Verification of the numerical components of the scipy-2017-codegen-tutorial
repository: the chemical-kinetics right-hand side `rhs`
(notebooks/25-chemical-kinetics-intro.ipynb), the forward-Euler integrator
`euler_fw` and the Cython evaluators `cy_f` / `cy_f_fastexp`
(notebooks/55-C-calling-3rd-party-lib.ipynb).

All numeric scalars are modelled over an arbitrary commutative ring `K`
(instantiated at `ℚ` for concrete evaluation and at `ℝ` for the analytic
claims); the Python code is duck-typed and is in fact also applied to
symbolic SymPy objects, so this polymorphism is faithful to the source.
-/

open Filter Real Topology

/-- Translation of `rhs` from notebooks/25-chemical-kinetics-intro.ipynb:

    def rhs(y, t, kf, kb):
        rf = kf * y[0]**2 * y[1]
        rb = kb * y[2]**2
        return [2*(rb - rf), rb - rf, 2*(rf - rb)]

The time argument `t` is accepted and ignored, exactly as in the source;
its type is arbitrary because the notebook even passes `t = None`. -/
def rhs {K : Type} [CommRing K] {T : Type} (y : List K) (t : T) (kf kb : K) : List K :=
  let rf := kf * (y.getD 0 0) ^ 2 * (y.getD 1 0)
  let rb := kb * (y.getD 2 0) ^ 2
  [2 * (rb - rf), rb - rf, 2 * (rf - rb)]

/-- Translation of the loop body of `euler_fw` from
notebooks/55-C-calling-3rd-party-lib.ipynb:

    t_old = tout[0]
    for i, t in enumerate(tout[1:], 1):
        dydt = rhs(yout[i-1], t, *params)
        h = t - t_old
        yout[i] = yout[i-1] + dydt*h
        t_old = t

`y` is the previous state `yout[i-1]`, `tOld` the running `t_old`, and the
list argument is the remaining tail of `tout`.  Note that the source passes
the NEW grid time `t` (not `t_old`) to the derivative callback. -/
def eulerSteps {K P : Type} [CommRing K] (f : K → K → P → K) (params : P) :
    K → K → List K → List K
  | _, _, [] => []
  | y, tOld, t :: ts =>
    let dydt := f y t params
    let h := t - tOld
    let y2 := y + dydt * h
    y2 :: eulerSteps f params y2 t ts

/-- Translation of `euler_fw` from notebooks/55-C-calling-3rd-party-lib.ipynb:

    def euler_fw(rhs, y0, tout, params):
        yout = np.zeros((len(tout), 1))
        yout[0] = y0
        t_old = tout[0]
        for i, t in enumerate(tout[1:], 1):
            dydt = rhs(yout[i-1], t, *params)
            h = t - t_old
            yout[i] = yout[i-1] + dydt*h
            t_old = t
        return yout

The buffer `np.zeros((len(tout), 1))` holds exactly one scalar per time
point, so the trajectory is a list of scalars.  An empty `tout` makes the
source raise an `IndexError` at `yout[0] = y0`, modelled by `none`. -/
def euler_fw {K P : Type} [CommRing K] (f : K → K → P → K) (y0 : K) (tout : List K)
    (params : P) : Option (List K) :=
  match tout with
  | [] => none
  | t0 :: ts => some (y0 :: eulerSteps f params y0 t0 ts)

/-- The loop of `euler_fw` with a fallible derivative callback: a Python
callback that raises is modelled as returning `Except.error`, and the raised
exception aborts the loop exactly as in Python. -/
def eulerStepsE {K P E : Type} [CommRing K] (f : K → K → P → Except E K) (params : P) :
    K → K → List K → Except E (List K)
  | _, _, [] => Except.ok []
  | y, tOld, t :: ts =>
    match f y t params with
    | Except.error e => Except.error e
    | Except.ok dydt =>
      let y2 := y + dydt * (t - tOld)
      match eulerStepsE f params y2 t ts with
      | Except.error e => Except.error e
      | Except.ok rest => Except.ok (y2 :: rest)

/-- `euler_fw` with a fallible derivative callback.  `none` models the
`IndexError` on an empty grid; `some (Except.error e)` models an exception
`e` raised by the callback and propagating out of `euler_fw`. -/
def euler_fwE {K P E : Type} [CommRing K] (f : K → K → P → Except E K) (y0 : K)
    (tout : List K) (params : P) : Option (Except E (List K)) :=
  match tout with
  | [] => none
  | t0 :: ts =>
    match eulerStepsE f params y0 t0 ts with
    | Except.error e => some (Except.error e)
    | Except.ok rest => some (Except.ok (y0 :: rest))

/-- Specification-side companion of `eulerStepsE`: the exception raised by
the first failing derivative call along the run, if any. -/
def eulerFirstErr {K P E : Type} [CommRing K] (f : K → K → P → Except E K) (params : P) :
    K → K → List K → Option E
  | _, _, [] => none
  | y, tOld, t :: ts =>
    match f y t params with
    | Except.error e => some e
    | Except.ok dydt => eulerFirstErr f params (y + dydt * (t - tOld)) t ts

/-- Translation of `numpy.linspace a b m`: `m` evenly spaced points from `a`
to `b` inclusive, point `i` being `a + (b - a) * i / (m - 1)`.  (For `m = 1`
numpy returns `[a]`; here division by zero yields zero, giving `[a]` too.) -/
def linspace {K : Type} [Field K] (a b : K) (m : ℕ) : List K :=
  (List.range m).map (fun i : ℕ => a + (b - a) * (i : K) / ((m - 1 : ℕ) : K))

/-- Numpy assignment of a one-dimensional value into a row of width `w`
(the source's `yout[i] = v` with `yout` of shape `(len(tout), 1)`):
broadcasting succeeds iff the value has length `w` or length 1; otherwise
numpy raises a broadcasting `ValueError`, modelled by `none`. -/
def npSetRow {K : Type} [CommRing K] (w : ℕ) (v : List K) : Option (List K) :=
  if v.length = w then some v
  else if v.length = 1 then some (List.replicate w (v.getD 0 0))
  else none

/-- Numpy elementwise addition with broadcasting of length-1 operands;
incompatible shapes raise, modelled by `none`. -/
def npAdd {K : Type} [CommRing K] (a b : List K) : Option (List K) :=
  if a.length = b.length then some (List.zipWith (· + ·) a b)
  else if a.length = 1 then some (b.map (fun x => a.getD 0 0 + x))
  else if b.length = 1 then some (a.map (fun x => x + b.getD 0 0))
  else none

/-- The loop of `euler_fw` on list-valued states, with the numpy broadcasting
semantics of the source's width-1 buffer `np.zeros((len(tout), 1))` made
explicit: each assignment `yout[i] = yout[i-1] + dydt*h` must broadcast its
right-hand side into a row of width 1. -/
def eulerStepsVec {K P : Type} [CommRing K] (f : List K → K → P → List K) (params : P) :
    List K → K → List K → Option (List (List K))
  | _, _, [] => some []
  | y, tOld, t :: ts =>
    let dydt := f y t params
    match npAdd y (dydt.map (fun d => d * (t - tOld))) with
    | none => none
    | some s =>
      match npSetRow 1 s with
      | none => none
      | some row =>
        match eulerStepsVec f params row t ts with
        | none => none
        | some rest => some (row :: rest)

/-- `euler_fw` on list-valued states: the initial assignment
`yout[0] = y0` into the width-1 buffer already fails (numpy `ValueError`)
whenever the initial state has length other than 1. -/
def euler_fw_vec {K P : Type} [CommRing K] (f : List K → K → P → List K) (y0 : List K)
    (tout : List K) (params : P) : Option (List (List K)) :=
  match tout with
  | [] => none
  | t0 :: ts =>
    match npSetRow 1 y0 with
    | none => none
    | some row0 =>
      match eulerStepsVec f params row0 t0 ts with
      | none => none
      | some rest => some (row0 :: rest)

/-- The observable environment of a call to `euler_fw`: the caller-owned
inputs together with the integrator-owned output buffer, threaded explicitly
through every assignment the source performs. -/
structure EulerStore (K P : Type) where
  y0 : K
  tout : List K
  params : P
  yout : List K
  deriving DecidableEq

/-- The loop of `euler_fw` as explicit state passing over `EulerStore`,
assignment by assignment: iteration `i` reads `yout[i-1]` and writes only
`yout[i]` (always in range, since `i < len(tout)`). -/
def eulerLoopStore {K P : Type} [CommRing K] (f : K → K → P → K) :
    EulerStore K P → ℕ → K → List K → EulerStore K P
  | s, _, _, [] => s
  | s, i, tOld, t :: ts =>
    let dydt := f (s.yout.getD (i - 1) 0) t s.params
    let h := t - tOld
    let s2 := { s with yout := s.yout.set i (s.yout.getD (i - 1) 0 + dydt * h) }
    eulerLoopStore f s2 (i + 1) t ts

/-- `euler_fw` with its environment threaded explicitly: the buffer
`np.zeros((len(tout), 1))` is allocated, `yout[0] = y0` is performed, and the
loop runs; the final store records the state of every array at return. -/
def euler_fw_store {K P : Type} [CommRing K] (f : K → K → P → K) (y0 : K) (tout : List K)
    (params : P) : Option (EulerStore K P) :=
  match tout with
  | [] => none
  | t0 :: ts =>
    let s0 : EulerStore K P := ⟨y0, t0 :: ts, params, List.replicate (t0 :: ts).length 0⟩
    let s1 := { s0 with yout := s0.yout.set 0 y0 }
    some (eulerLoopStore f s1 1 t0 ts)

/-- The decay derivative callback from
notebooks/55-C-calling-3rd-party-lib.ipynb: `lambda y, t, l: -l*y`. -/
def decayRHS : ℝ → ℝ → ℝ → ℝ := fun y _ l => -l * y

/-- The integrator output at `t = 1` for the notebook's decay problem
(`dy/dt = -2*y`, `y0 = 3`) on the uniform grid `np.linspace(0, 1, n+1)`,
i.e. `n` forward-Euler steps of size `1/n`. -/
noncomputable def eulerDecayFinal (n : ℕ) : ℝ :=
  ((euler_fw decayRHS 3 (linspace 0 1 (n + 1)) 2).getD []).getLastD 0

/-- The global error at `t = 1` of the `n`-step run against the analytic
solution `3 * exp (-2)`. -/
noncomputable def eulerDecayErr (n : ℕ) : ℝ :=
  |eulerDecayFinal n - 3 * Real.exp (-2)|

/-- Specification-side list of consecutive differences of a time grid:
exactly the step sizes `h = t - t_old` the integrator loop forms. -/
def stepDiffs {K : Type} [CommRing K] : K → List K → List K
  | _, [] => []
  | tOld, t :: ts => (t - tOld) :: stepDiffs t ts

/-- Specification-side gap `2 + n * log (1 - 2/n)` between the exponent of
the `n`-step decay run `(1 - 2/n)^n = exp (n * log (1 - 2/n))` and the
analytic exponent `-2`; the error analysis of the run is driven by its
asymptotics. -/
noncomputable def bseq (n : ℕ) : ℝ := 2 + n * Real.log (1 - 2 / n)

/-- The exceptions the Cython evaluators can raise: the `IndexError` of a
bounds-checked buffer access (Cython's default `boundscheck` is on; no
directive in the notebook or in template.pyxbld turns it off) and the
explicit `ValueError` with its message. -/
inductive CyErr where
  | indexError : CyErr
  | valueError : String → CyErr
  deriving DecidableEq

/-- Translation of the Cython `cy_f` from
notebooks/55-C-calling-3rd-party-lib.ipynb, operation by operation in source
order:

    def cy_f(x, y, z):
        cdef cnp.ndarray[cnp.float64_t, ndim=1, mode='c'] out = np.empty(x.size)
        cdef double * _x = &x[0]
        cdef double * _y = &y[0]
        cdef double * _z = &z[0]
        cdef double * _out = &out[0]
        cdef int i
        if x.size != y.size or x.size != z.size:
            raise ValueError("Inconsistent length")
        for i in range(x.size):
            _out[i] = _x[i] + exp(2*_y[i] + _x[i]) + exp(3*_z[i])
        return out

The pointer extractions `&x[0]`, `&y[0]`, `&z[0]`, `&out[0]` run BEFORE the
length check; with default bounds checking each raises `IndexError` on an
empty array (`out` has `x.size` entries, so `&out[0]` fails iff `x` is
empty).  Only then comes the `ValueError` path, and finally the loop.  The
libc `exp` is the real exponential (hence no executable code exists for this
definition). -/
noncomputable def cy_f (x y z : List ℝ) : Except CyErr (List ℝ) :=
  if x.length = 0 then Except.error CyErr.indexError
  else if y.length = 0 then Except.error CyErr.indexError
  else if z.length = 0 then Except.error CyErr.indexError
  else if x.length = 0 then Except.error CyErr.indexError
  else if x.length ≠ y.length ∨ x.length ≠ z.length then
    Except.error (CyErr.valueError "Inconsistent length")
  else
    Except.ok ((List.range x.length).map (fun i =>
      x.getD i 0 + Real.exp (2 * y.getD i 0 + x.getD i 0) + Real.exp (3 * z.getD i 0)))

/-- Translation of the Cython `cy_f_fastexp` from
notebooks/55-C-calling-3rd-party-lib.ipynb: identical to `cy_f` — including
the pointer extractions before the length check — except that the external
`fastexp` from the vendored fastapprox header replaces `exp`.  `fastexp` is
third-party code, treated as an opaque callback parameter. -/
def cy_f_fastexp (fastexp : ℝ → ℝ) (x y z : List ℝ) : Except CyErr (List ℝ) :=
  if x.length = 0 then Except.error CyErr.indexError
  else if y.length = 0 then Except.error CyErr.indexError
  else if z.length = 0 then Except.error CyErr.indexError
  else if x.length = 0 then Except.error CyErr.indexError
  else if x.length ≠ y.length ∨ x.length ≠ z.length then
    Except.error (CyErr.valueError "Inconsistent length")
  else
    Except.ok ((List.range x.length).map (fun i =>
      x.getD i 0 + fastexp (2 * y.getD i 0 + x.getD i 0) + fastexp (3 * z.getD i 0)))

/-- Claim C1.  Applied to a state of length 3, any time value and any rates,
`rhs` returns exactly `[2*(rb - rf), rb - rf, 2*(rf - rb)]` with
`rf = kf*y0^2*y1` and `rb = kb*y2^2`. -/
theorem rhs_formula {K : Type} [CommRing K] {T : Type} (y0 y1 y2 : K) (t : T) (kf kb : K) :
    rhs [y0, y1, y2] t kf kb =
      [2 * (kb * y2 ^ 2 - kf * y0 ^ 2 * y1), kb * y2 ^ 2 - kf * y0 ^ 2 * y1,
        2 * (kf * y0 ^ 2 * y1 - kb * y2 ^ 2)] := by
  simp [rhs]

/-- Claim C10.  `rhs` ignores its time argument entirely: any two time values,
even of two different types (the notebook passes `t = None`, modelled by
`Option`), give the same result. -/
theorem rhs_autonomous {K : Type} [CommRing K] {T1 T2 : Type} (y : List K)
    (t1 : T1) (t2 : T2) (kf kb : K) :
    rhs y t1 kf kb = rhs y t2 kf kb ∧ rhs y (none : Option T1) kf kb = rhs y t1 kf kb :=
  ⟨rfl, rfl⟩

/-- Claim C5.  On a time grid of length exactly 1 the integrator returns only
the initial state, and the derivative callback is never evaluated: even a
callback that always raises leads to a successful run returning `[y0]`. -/
theorem euler_fw_single_point {K P E : Type} [CommRing K] (f : K → K → P → K)
    (fE : K → K → P → Except E K) (y0 t0 : K) (params : P) :
    euler_fw f y0 [t0] params = some [y0] ∧
      euler_fwE fE y0 [t0] params = some (Except.ok [y0]) :=
  ⟨rfl, rfl⟩

/-- Length of the Euler loop output: one entry per remaining grid point. -/
theorem eulerSteps_length {K P : Type} [CommRing K] (f : K → K → P → K) (params : P) :
    ∀ (ts : List K) (y tOld : K), (eulerSteps f params y tOld ts).length = ts.length := by
  intro ts
  induction ts with
  | nil => intro y tOld; rfl
  | cons t ts ih => intro y tOld; simp [eulerSteps, ih]

/-- Claim C4 (amended).  For every derivative callback, scalar initial state,
nonempty time grid and parameter pack, the integrator succeeds, its
trajectory has exactly one entry per grid point, and the first entry is the
supplied initial state itself. -/
theorem euler_fw_length_head {K P : Type} [CommRing K] (f : K → K → P → K) (y0 : K)
    (tout : List K) (params : P) (h : tout ≠ []) :
    ∃ tr, euler_fw f y0 tout params = some tr ∧ tr.length = tout.length ∧
      tr.head? = some y0 := by
  match tout with
  | [] => exact absurd rfl h
  | t0 :: ts =>
    refine ⟨y0 :: eulerSteps f params y0 t0 ts, rfl, ?_, rfl⟩
    simp [eulerSteps_length]

/-- Witness for C4: concrete run on the grid `[0, 1]` with initial state 3. -/
theorem euler_fw_length_head_witness :
    ∃ tr, euler_fw (fun (y _ : ℚ) (_ : Unit) => y) 3 [0, 1] () = some tr ∧
      tr.length = ([(0 : ℚ), 1]).length ∧ tr.head? = some 3 :=
  euler_fw_length_head (fun (y _ : ℚ) (_ : Unit) => y) 3 [0, 1] () (by simp)

/-- Claim C4 (counterexample to the claim as stated).  In the concrete
scenario — the three-species state `y0 = [1, 1, 0]`, rates `(0.42, 0.17)`
and 50 uniform points over `[0, 10]` — the repository integrator does not
produce a `(50, 3)` trajectory: its buffer `np.zeros((len(tout), 1))` has
width 1, so the very first assignment `yout[0] = [1, 1, 0]` fails to
broadcast and the call raises instead of returning an output.  (The
notebook runs this scenario through the external `scipy.integrate.odeint`,
not through `euler_fw`.) -/
theorem euler_fw_vec_three_species :
    euler_fw_vec (fun (y : List ℚ) (t : ℚ) (p : ℚ × ℚ) => rhs y t p.1 p.2)
      [1, 1, 0] (linspace 0 10 50) (21 / 50, 17 / 100) = none := by
  have hlen : (linspace (0 : ℚ) 10 50).length = 50 := by
    rw [linspace, List.length_map, List.length_range]
  have hne : linspace (0 : ℚ) 10 50 ≠ [] := by
    intro hnil
    rw [hnil] at hlen
    simp at hlen
  obtain ⟨t0, ts, hcons⟩ := List.exists_cons_of_ne_nil hne
  rw [hcons, euler_fw_vec]
  norm_num [npSetRow]

/-- Helper for C6: if the first failing derivative call raises `e`, the whole
loop evaluates to exactly that error. -/
theorem eulerStepsE_error_of_firstErr {K P E : Type} [CommRing K]
    (f : K → K → P → Except E K) (params : P) (e : E) :
    ∀ (ts : List K) (y tOld : K), eulerFirstErr f params y tOld ts = some e →
      eulerStepsE f params y tOld ts = Except.error e := by
  intro ts
  induction ts with
  | nil => intro y tOld h; simp [eulerFirstErr] at h
  | cons t ts ih =>
    intro y tOld h
    rw [eulerFirstErr] at h
    rw [eulerStepsE]
    cases hf : f y t params with
    | error e2 =>
      rw [hf] at h
      simp only [Option.some.injEq] at h
      subst h
      rfl
    | ok dydt =>
      rw [hf] at h
      simp only at h
      show (match eulerStepsE f params (y + dydt * (t - tOld)) t ts with
        | Except.error e => Except.error e
        | Except.ok rest => Except.ok ((y + dydt * (t - tOld)) :: rest)) = Except.error e
      rw [ih _ _ h]

/-- Claim C6.  If the derivative callback raises at any step — `e` being the
exception of the first failing call — the integrator returns exactly
`Except.error e`: the error propagates unchanged and immediately, with no
retry, no recovery and no partial trajectory. -/
theorem euler_fwE_error_propagates {K P E : Type} [CommRing K]
    (f : K → K → P → Except E K) (y0 t0 : K) (ts : List K) (params : P) (e : E)
    (h : eulerFirstErr f params y0 t0 ts = some e) :
    euler_fwE f y0 (t0 :: ts) params = some (Except.error e) := by
  rw [euler_fwE, eulerStepsE_error_of_firstErr f params e ts y0 t0 h]

/-- Witness for C6: a callback raising the exception 7 at the step towards
`t = 2` makes the whole integration return exactly that exception. -/
theorem euler_fwE_error_propagates_witness :
    euler_fwE (fun (_ t : ℚ) (_ : Unit) => if t = 2 then Except.error 7 else Except.ok 0)
      5 [0, 1, 2] () = some (Except.error (7 : ℕ)) :=
  euler_fwE_error_propagates _ 5 0 [1, 2] () 7 (by norm_num [eulerFirstErr])

/-- Helper for C7: the loop only ever writes into the `yout` buffer; the
caller-owned fields of the store are untouched. -/
theorem eulerLoopStore_frame {K P : Type} [CommRing K] (f : K → K → P → K) :
    ∀ (ts : List K) (s : EulerStore K P) (i : ℕ) (tOld : K),
      (eulerLoopStore f s i tOld ts).y0 = s.y0 ∧
        (eulerLoopStore f s i tOld ts).tout = s.tout ∧
        (eulerLoopStore f s i tOld ts).params = s.params := by
  intro ts
  induction ts with
  | nil => intro s i tOld; exact ⟨rfl, rfl, rfl⟩
  | cons t ts ih =>
    intro s i tOld
    rw [eulerLoopStore]
    exact ih _ _ _

/-- Claim C7.  The integrator has no side effect on caller-owned inputs:
after any successful run, the initial state, the time grid and the parameter
pack held in the environment are exactly the ones supplied. -/
theorem euler_fw_store_frame {K P : Type} [CommRing K] (f : K → K → P → K) (y0 : K)
    (tout : List K) (params : P) (s : EulerStore K P)
    (h : euler_fw_store f y0 tout params = some s) :
    s.y0 = y0 ∧ s.tout = tout ∧ s.params = params := by
  match tout with
  | [] => exact absurd h (by simp [euler_fw_store])
  | t0 :: ts =>
    rw [euler_fw_store] at h
    simp only [Option.some.injEq] at h
    subst h
    exact eulerLoopStore_frame f ts _ 1 t0

/-- Witness for C7: a concrete two-point run, with the final store computed
explicitly; its caller-owned fields equal the supplied inputs. -/
theorem euler_fw_store_frame_witness :
    euler_fw_store (fun (y _ : ℚ) (_ : Unit) => y) 1 [0, 2] ()
        = some ⟨1, [0, 2], (), [1, 3]⟩ ∧
      (⟨1, [0, 2], (), [1, 3]⟩ : EulerStore ℚ Unit).y0 = 1 ∧
      (⟨1, [0, 2], (), [1, 3]⟩ : EulerStore ℚ Unit).tout = [0, 2] ∧
      (⟨1, [0, 2], (), [1, 3]⟩ : EulerStore ℚ Unit).params = () :=
  ⟨by norm_num [euler_fw_store, eulerLoopStore, List.replicate],
    euler_fw_store_frame (fun (y _ : ℚ) (_ : Unit) => y) 1 [0, 2] () _
      (by norm_num [euler_fw_store, eulerLoopStore, List.replicate])⟩

/-- Claim C3 (evaluation of the code at the failing input).  For the
time-dependent derivative `f(y, t) = t` on the grid `[0, 1]` with `y0 = 0`,
the integrator produces `[0, 1]`: the derivative for the step from `t = 0`
to `t = 1` is evaluated at the NEW grid time (value 1), whereas the claimed
update `trajectory[1] = trajectory[0] + f(trajectory[0], t_0) * h` — which
matches the notebook's own displayed forward-Euler formula — predicts the
trajectory `[0, 0]`. -/
theorem euler_fw_eval_time :
    euler_fw (fun (_ t : ℚ) (_ : Unit) => t) 0 [0, 1] () = some [0, 1] ∧
      (0 : ℚ) + (fun (_ t : ℚ) (_ : Unit) => t) 0 0 () * (1 - 0) = 0 := by
  exact ⟨by norm_num [euler_fw, eulerSteps], by norm_num⟩

/-- Claim C2.  The first and third components of `rhs` always sum to zero;
consequently any (differentiable) solution of the system it defines keeps
`y0 + y2` constant, and a single forward-Euler update of a length-3 state by
`rhs` leaves `y0 + y2` unchanged for every step size. -/
theorem rhs_conserved (kf kb : ℝ) :
    (∀ (y : List ℝ) (t : ℝ),
        (rhs y t kf kb).getD 0 0 + (rhs y t kf kb).getD 2 0 = 0) ∧
    (∀ f0 f1 f2 : ℝ → ℝ,
        (∀ u : ℝ, HasDerivAt f0 ((rhs [f0 u, f1 u, f2 u] u kf kb).getD 0 0) u) →
        (∀ u : ℝ, HasDerivAt f1 ((rhs [f0 u, f1 u, f2 u] u kf kb).getD 1 0) u) →
        (∀ u : ℝ, HasDerivAt f2 ((rhs [f0 u, f1 u, f2 u] u kf kb).getD 2 0) u) →
        ∀ s u : ℝ, f0 s + f2 s = f0 u + f2 u) ∧
    (∀ (a b c t h : ℝ),
        (List.zipWith (fun yi di => yi + di * h) [a, b, c] (rhs [a, b, c] t kf kb)).getD 0 0 +
            (List.zipWith (fun yi di => yi + di * h) [a, b, c] (rhs [a, b, c] t kf kb)).getD 2 0 =
          a + c) := by
  refine ⟨?_, ?_, ?_⟩
  · intro y t
    simp only [rhs, List.getD]
    simp
    ring
  · intro f0 f1 f2 h0 _ h2 s u
    have hsum : ∀ v : ℝ, HasDerivAt (fun w => f0 w + f2 w) 0 v := by
      intro v
      have hadd := (h0 v).add (h2 v)
      have hzero : (rhs [f0 v, f1 v, f2 v] v kf kb).getD 0 0 +
          (rhs [f0 v, f1 v, f2 v] v kf kb).getD 2 0 = 0 := by
        simp only [rhs, List.getD]
        simp
        ring
      rwa [hzero] at hadd
    exact is_const_of_deriv_eq_zero (fun v => (hsum v).differentiableAt)
      (fun v => (hsum v).deriv) s u
  · intro a b c t h
    simp only [rhs, List.zipWith, List.getD]
    simp
    ring

/-- Witness for C2: the constant-zero functions solve the system (with rates
1, 1), so the conservation statement applies to them. -/
theorem rhs_conserved_witness :
    (0 : ℝ) + 0 = 0 + 0 := by
  have hz : ∀ i : ℕ, ∀ u : ℝ,
      HasDerivAt (fun _ : ℝ => (0 : ℝ)) ((rhs [(0 : ℝ), 0, 0] u 1 1).getD i 0) u := by
    intro i u
    have hval : (rhs [(0 : ℝ), 0, 0] u 1 1).getD i 0 = 0 := by
      have : rhs [(0 : ℝ), 0, 0] u 1 1 = [0, 0, 0] := by
        simp [rhs]
      rw [this]
      match i with
      | 0 => rfl
      | 1 => rfl
      | 2 => rfl
      | n + 3 => rfl
    rw [hval]
    exact hasDerivAt_const u 0
  exact (rhs_conserved 1 1).2.1 (fun _ => 0) (fun _ => 0) (fun _ => 0)
    (hz 0) (hz 1) (hz 2) 0 1

/-- Claim C9 (counterexample to the claim as stated).  On `x = [1]`,
`y = [2]`, `z = []` the three lengths are not all equal, yet the code does
not raise `ValueError("Inconsistent length")`: the pointer extraction
`&z[0]`, which runs before the length check, raises `IndexError` on the
empty array under Cython's default bounds checking. -/
theorem cy_f_empty_counterexample :
    cy_f [1] [2] [] = Except.error CyErr.indexError ∧
      cy_f_fastexp id [1] [2] [] = Except.error CyErr.indexError ∧
      cy_f [1] [2] [] ≠ Except.error (CyErr.valueError "Inconsistent length") := by
  refine ⟨by simp [cy_f], by simp [cy_f_fastexp], ?_⟩
  simp [cy_f]

/-- Claim C9 (amended).  If any of the three inputs is empty, `cy_f` and
`cy_f_fastexp` (the latter for any external `fastexp`) raise `IndexError`
from the pointer extractions that precede the length check; if all three are
non-empty but do not share one length they raise
`ValueError("Inconsistent length")`; on equal non-zero lengths they return
an array of that length whose entry `i` depends only on `x[i]`, `y[i]`,
`z[i]`, namely `x[i] + exp(2*y[i] + x[i]) + exp(3*z[i])` (with `fastexp`
replacing `exp`). -/
theorem cy_f_consistent (g : ℝ → ℝ) (x y z : List ℝ) :
    ((x = [] ∨ y = [] ∨ z = []) →
      cy_f x y z = Except.error CyErr.indexError ∧
        cy_f_fastexp g x y z = Except.error CyErr.indexError) ∧
    (x ≠ [] → y ≠ [] → z ≠ [] → ¬(x.length = y.length ∧ x.length = z.length) →
      cy_f x y z = Except.error (CyErr.valueError "Inconsistent length") ∧
        cy_f_fastexp g x y z = Except.error (CyErr.valueError "Inconsistent length")) ∧
    (x.length = y.length → x.length = z.length → x ≠ [] →
      ∃ out fout, cy_f x y z = Except.ok out ∧ cy_f_fastexp g x y z = Except.ok fout ∧
        out.length = x.length ∧ fout.length = x.length ∧
        ∀ i, i < x.length →
          out.getD i 0 = x.getD i 0 + Real.exp (2 * y.getD i 0 + x.getD i 0) +
              Real.exp (3 * z.getD i 0) ∧
            fout.getD i 0 = x.getD i 0 + g (2 * y.getD i 0 + x.getD i 0) +
              g (3 * z.getD i 0)) := by
  refine ⟨?_, ?_, ?_⟩
  · intro hor
    by_cases hx : x.length = 0
    · constructor
      · rw [cy_f, if_pos hx]
      · rw [cy_f_fastexp, if_pos hx]
    · by_cases hy : y.length = 0
      · constructor
        · rw [cy_f, if_neg hx, if_pos hy]
        · rw [cy_f_fastexp, if_neg hx, if_pos hy]
      · have hz : z.length = 0 := by
          rcases hor with h | h | h
          · exact absurd (by simp [h] : x.length = 0) hx
          · exact absurd (by simp [h] : y.length = 0) hy
          · simp [h]
        constructor
        · rw [cy_f, if_neg hx, if_neg hy, if_pos hz]
        · rw [cy_f_fastexp, if_neg hx, if_neg hy, if_pos hz]
  · intro hxe hye hze hne
    have hx : ¬x.length = 0 := by simpa [List.length_eq_zero] using hxe
    have hy : ¬y.length = 0 := by simpa [List.length_eq_zero] using hye
    have hz : ¬z.length = 0 := by simpa [List.length_eq_zero] using hze
    have hc : x.length ≠ y.length ∨ x.length ≠ z.length := by tauto
    constructor
    · rw [cy_f, if_neg hx, if_neg hy, if_neg hz, if_neg hx, if_pos hc]
    · rw [cy_f_fastexp, if_neg hx, if_neg hy, if_neg hz, if_neg hx, if_pos hc]
  · intro h1 h2 hxe
    have hx : ¬x.length = 0 := by simpa [List.length_eq_zero] using hxe
    have hy : ¬y.length = 0 := by rw [← h1]; exact hx
    have hz : ¬z.length = 0 := by rw [← h2]; exact hx
    have hc : ¬(x.length ≠ y.length ∨ x.length ≠ z.length) := by tauto
    rw [cy_f, if_neg hx, if_neg hy, if_neg hz, if_neg hx, if_neg hc]
    rw [cy_f_fastexp, if_neg hx, if_neg hy, if_neg hz, if_neg hx, if_neg hc]
    refine ⟨_, _, rfl, rfl, by simp, by simp, ?_⟩
    intro i hi
    have hi2 : i < ((List.range x.length).map (fun i =>
        x.getD i 0 + Real.exp (2 * y.getD i 0 + x.getD i 0) +
          Real.exp (3 * z.getD i 0))).length := by simpa using hi
    have hi3 : i < ((List.range x.length).map (fun i =>
        x.getD i 0 + g (2 * y.getD i 0 + x.getD i 0) + g (3 * z.getD i 0))).length := by
      simpa using hi
    rw [List.getD_eq_getElem _ _ hi2, List.getD_eq_getElem _ _ hi3]
    simp

/-- Witness for C9: an empty input raises IndexError, non-empty mismatched
lengths raise the ValueError, and on singleton inputs the result is the
elementwise expression. -/
theorem cy_f_consistent_witness :
    (cy_f [1] [] [3] = Except.error CyErr.indexError ∧
      cy_f_fastexp id [1] [] [3] = Except.error CyErr.indexError) ∧
    (cy_f [1] [2] [3, 4] = Except.error (CyErr.valueError "Inconsistent length") ∧
      cy_f_fastexp id [1] [2] [3, 4] = Except.error (CyErr.valueError "Inconsistent length")) ∧
    ∃ out fout, cy_f [1] [2] [3] = Except.ok out ∧
      cy_f_fastexp id [1] [2] [3] = Except.ok fout ∧
      out.length = [(1 : ℝ)].length ∧ fout.length = [(1 : ℝ)].length ∧
      ∀ i, i < [(1 : ℝ)].length →
        out.getD i 0 = [(1 : ℝ)].getD i 0 +
            Real.exp (2 * [(2 : ℝ)].getD i 0 + [(1 : ℝ)].getD i 0) +
            Real.exp (3 * [(3 : ℝ)].getD i 0) ∧
          fout.getD i 0 = [(1 : ℝ)].getD i 0 +
            id (2 * [(2 : ℝ)].getD i 0 + [(1 : ℝ)].getD i 0) +
            id (3 * [(3 : ℝ)].getD i 0) :=
  ⟨(cy_f_consistent id [1] [] [3]).1 (Or.inr (Or.inl rfl)),
    (cy_f_consistent id [1] [2] [3, 4]).2.1 (by simp) (by simp) (by simp) (by simp),
    (cy_f_consistent id [1] [2] [3]).2.2 rfl rfl (by simp)⟩

/-- On the decay problem every Euler step multiplies the state by
`1 - l * h`; the last trajectory entry is the product of these factors. -/
theorem decay_eulerSteps (l : ℝ) : ∀ (ts : List ℝ) (y tOld : ℝ),
    (eulerSteps decayRHS l y tOld ts).getLastD y
      = y * ((stepDiffs tOld ts).map (fun h => 1 - l * h)).prod := by
  intro ts
  induction ts with
  | nil => intro y tOld; simp [eulerSteps, stepDiffs]
  | cons t ts ih =>
    intro y tOld
    show ((y + decayRHS y t l * (t - tOld))
          :: eulerSteps decayRHS l (y + decayRHS y t l * (t - tOld)) t ts).getLastD y
        = y * (((t - tOld) :: stepDiffs t ts).map (fun h => 1 - l * h)).prod
    rw [List.getLastD_cons, ih]
    simp only [decayRHS, List.map_cons, List.prod_cons]
    ring

/-- The consecutive differences of the uniform grid `i / n` are all `1/n`. -/
theorem stepDiffs_uniform (n : ℕ) (hn : (n : ℝ) ≠ 0) : ∀ (m k : ℕ),
    stepDiffs ((k : ℝ) / n) ((List.range' (k + 1) m).map (fun i : ℕ => (i : ℝ) / n))
      = List.replicate m (1 / (n : ℝ)) := by
  intro m
  induction m with
  | zero => intro k; simp [stepDiffs]
  | succ m ih =>
    intro k
    rw [List.range'_succ, List.map_cons, stepDiffs, ih (k + 1), List.replicate_succ]
    congr 1
    push_cast
    field_simp

/-- `np.linspace(0, 1, n+1)` is the grid of the points `i / n`. -/
theorem linspace_unit (n : ℕ) :
    linspace (0 : ℝ) 1 (n + 1) = (List.range (n + 1)).map (fun i : ℕ => (i : ℝ) / n) := by
  simp only [linspace, Nat.add_sub_cancel]
  congr 1
  funext i
  ring

/-- Closed form of the decay run: `n` uniform Euler steps over `[0, 1]` give
`3 * (1 - 2/n) ^ n` at `t = 1`. -/
theorem eulerDecayFinal_eq (n : ℕ) (hn : n ≠ 0) :
    eulerDecayFinal n = 3 * (1 - 2 / (n : ℝ)) ^ n := by
  have hn' : (n : ℝ) ≠ 0 := Nat.cast_ne_zero.mpr hn
  rw [eulerDecayFinal, linspace_unit, List.range_eq_range', List.range'_succ, List.map_cons]
  simp only [euler_fw, Option.getD_some, List.getLastD_cons]
  rw [decay_eulerSteps, stepDiffs_uniform n hn' n 0, List.map_replicate, List.prod_replicate,
    mul_one_div]

/-- Taylor estimate for the logarithm in the decay-run exponent. -/
theorem decay_log_bound (n : ℕ) (hn : 3 ≤ n) :
    |Real.log (1 - 2 / (n : ℝ)) + 2 / n + 2 / (n : ℝ) ^ 2|
      ≤ (2 / (n : ℝ)) ^ 3 / (1 - 2 / n) := by
  have hn3 : (3 : ℝ) ≤ (n : ℝ) := by exact_mod_cast hn
  have hx0 : (0 : ℝ) < 2 / n := by positivity
  have hx1 : (2 : ℝ) / n < 1 := by
    rw [div_lt_one (by linarith)]
    linarith
  have habs : |(2 : ℝ) / n| < 1 := by
    rw [abs_of_pos hx0]; exact hx1
  have key := Real.abs_log_sub_add_sum_range_le habs 2
  have hsum : (∑ i ∈ Finset.range 2, ((2 : ℝ) / n) ^ (i + 1) / (i + 1))
      = 2 / n + 2 / (n : ℝ) ^ 2 := by
    rw [Finset.sum_range_succ, Finset.sum_range_one]
    push_cast
    field_simp
    ring
  rw [hsum] at key
  rw [abs_of_pos hx0] at key
  calc |Real.log (1 - 2 / (n : ℝ)) + 2 / n + 2 / (n : ℝ) ^ 2|
      = |(2 / (n : ℝ) + 2 / (n : ℝ) ^ 2) + Real.log (1 - 2 / n)| := by ring_nf
    _ ≤ (2 / (n : ℝ)) ^ 3 / (1 - 2 / n) := key

/-- First-order asymptotics of the exponent gap: `n * bseq n` tends to -2. -/
theorem decay_tendsto_n_mul_b :
    Tendsto (fun n : ℕ => (n : ℝ) * bseq n) atTop (𝓝 (-2)) := by
  have hbound : Tendsto (fun n : ℕ => 8 / ((n : ℝ) - 2)) atTop (𝓝 0) := by
    apply Tendsto.div_atTop (tendsto_const_nhds : Tendsto (fun _ : ℕ => (8 : ℝ)) atTop (𝓝 8))
    exact tendsto_atTop_add_const_right atTop (-2) tendsto_natCast_atTop_atTop
  have hsq : Tendsto (fun n : ℕ => (n : ℝ) * bseq n + 2) atTop (𝓝 0) := by
    apply squeeze_zero_norm' _ hbound
    filter_upwards [eventually_atTop.mpr ⟨3, fun n hn => hn⟩] with n hn
    have hn3 : (3 : ℝ) ≤ (n : ℝ) := by exact_mod_cast hn
    have hnne : (n : ℝ) ≠ 0 := by linarith
    have hpos : (0 : ℝ) < 1 - 2 / n := by
      rw [sub_pos, div_lt_one (by linarith)]
      linarith
    have heq : (n : ℝ) * bseq n + 2
        = (n : ℝ) ^ 2 * (Real.log (1 - 2 / n) + 2 / n + 2 / (n : ℝ) ^ 2) := by
      rw [bseq]
      field_simp
      ring
    rw [Real.norm_eq_abs, heq, abs_mul, abs_of_pos (by positivity : (0 : ℝ) < (n : ℝ) ^ 2)]
    have hb := decay_log_bound n hn
    have hne2 : (n : ℝ) - 2 ≠ 0 := by linarith
    have hstep : (n : ℝ) ^ 2 * ((2 / (n : ℝ)) ^ 3 / (1 - 2 / n)) = 8 / ((n : ℝ) - 2) := by
      rw [div_pow]
      field_simp
      ring
    calc (n : ℝ) ^ 2 * |Real.log (1 - 2 / n) + 2 / n + 2 / (n : ℝ) ^ 2|
        ≤ (n : ℝ) ^ 2 * ((2 / (n : ℝ)) ^ 3 / (1 - 2 / n)) :=
          mul_le_mul_of_nonneg_left hb (by positivity)
      _ = 8 / ((n : ℝ) - 2) := hstep
  have hfin := hsq.sub_const 2
  simp only [add_sub_cancel_right, zero_sub] at hfin
  exact hfin

/-- The exponent gap itself tends to zero. -/
theorem decay_tendsto_b_zero : Tendsto bseq atTop (𝓝 0) := by
  have hinv : Tendsto (fun n : ℕ => ((n : ℝ))⁻¹) atTop (𝓝 0) :=
    tendsto_inv_atTop_zero.comp tendsto_natCast_atTop_atTop
  have hmul := decay_tendsto_n_mul_b.mul hinv
  rw [mul_zero] at hmul
  apply hmul.congr'
  filter_upwards [eventually_atTop.mpr ⟨1, fun n hn => hn⟩] with n hn
  have hnne : (n : ℝ) ≠ 0 := by
    have h1 : (1 : ℝ) ≤ (n : ℝ) := by exact_mod_cast hn
    linarith
  field_simp

/-- The exponent gap is strictly negative from `n = 3` on. -/
theorem decay_b_neg (n : ℕ) (hn : 3 ≤ n) : bseq n < 0 := by
  have hn3 : (3 : ℝ) ≤ (n : ℝ) := by exact_mod_cast hn
  have hpos : (0 : ℝ) < 1 - 2 / n := by
    rw [sub_pos, div_lt_one (by linarith)]
    linarith
  have hne1 : (1 : ℝ) - 2 / n ≠ 1 := by
    intro hcontra
    have hz : (2 : ℝ) / n = 0 := by linarith
    rw [div_eq_zero_iff] at hz
    rcases hz with h2 | h0
    · norm_num at h2
    · linarith
  have hlog := Real.log_lt_sub_one_of_pos hpos hne1
  have hlog2 : Real.log (1 - 2 / (n : ℝ)) < -(2 / n) := by linarith
  have hmul : (n : ℝ) * Real.log (1 - 2 / n) < (n : ℝ) * (-(2 / n)) :=
    mul_lt_mul_of_pos_left hlog2 (by linarith)
  have hcancel : (n : ℝ) * (-(2 / n)) = -2 := by
    field_simp
    ring
  rw [bseq]
  rw [hcancel] at hmul
  linarith

/-- Difference quotient of `exp` at the exponent gap tends to 1. -/
theorem decay_tendsto_exp_ratio :
    Tendsto (fun n : ℕ => (Real.exp (bseq n) - 1) / bseq n) atTop (𝓝 1) := by
  have hslope : Tendsto (fun t : ℝ => t⁻¹ • (Real.exp (0 + t) - Real.exp 0)) (𝓝[≠] 0)
      (𝓝 (Real.exp 0)) :=
    (Real.hasDerivAt_exp 0).tendsto_slope_zero
  have hb : Tendsto bseq atTop (𝓝[≠] (0 : ℝ)) := by
    apply tendsto_nhdsWithin_of_tendsto_nhds_of_eventually_within _ decay_tendsto_b_zero
    filter_upwards [eventually_atTop.mpr ⟨3, fun n hn => hn⟩] with n hn
    exact ne_of_lt (decay_b_neg n hn)
  have hcomp := hslope.comp hb
  rw [Real.exp_zero] at hcomp
  apply hcomp.congr
  intro n
  simp only [Function.comp_apply, zero_add, smul_eq_mul]
  rw [div_eq_inv_mul]

/-- Scaled deviation of `exp (bseq n)` from 1 tends to 2. -/
theorem decay_tendsto_n_one_sub_exp :
    Tendsto (fun n : ℕ => (n : ℝ) * (1 - Real.exp (bseq n))) atTop (𝓝 2) := by
  have hmul := (decay_tendsto_n_mul_b.neg).mul decay_tendsto_exp_ratio
  rw [mul_one, neg_neg] at hmul
  apply hmul.congr'
  filter_upwards [eventually_atTop.mpr ⟨3, fun n hn => hn⟩] with n hn
  have hbne : bseq n ≠ 0 := ne_of_lt (decay_b_neg n hn)
  field_simp
  ring

/-- The `n`-step factor in exponential form. -/
theorem decay_pow_eq_exp_b (n : ℕ) (hn : 3 ≤ n) :
    (1 - 2 / (n : ℝ)) ^ n = Real.exp (-2) * Real.exp (bseq n) := by
  have hn3 : (3 : ℝ) ≤ (n : ℝ) := by exact_mod_cast hn
  have hpos : (0 : ℝ) < 1 - 2 / n := by
    rw [sub_pos, div_lt_one (by linarith)]
    linarith
  rw [← Real.exp_add]
  have hexp : -2 + bseq n = (n : ℝ) * Real.log (1 - 2 / n) := by
    rw [bseq]; ring
  rw [hexp, Real.exp_nat_mul, Real.exp_log hpos]

/-- The global error of the `n`-step run in exponential form. -/
theorem decay_err_eq (n : ℕ) (hn : 3 ≤ n) :
    eulerDecayErr n = 3 * Real.exp (-2) * (1 - Real.exp (bseq n)) := by
  have hexp : Real.exp (bseq n) < 1 := Real.exp_lt_one_iff.mpr (decay_b_neg n hn)
  rw [eulerDecayErr, eulerDecayFinal_eq n (by omega), decay_pow_eq_exp_b n hn]
  rw [abs_of_neg (by nlinarith [Real.exp_pos (-2 : ℝ)])]
  ring

/-- The scaled global error tends to `6 * exp (-2)`: the error decays at
exactly first order in the step size. -/
theorem decay_tendsto_n_err :
    Tendsto (fun n : ℕ => (n : ℝ) * eulerDecayErr n) atTop (𝓝 (6 * Real.exp (-2))) := by
  have hmul := decay_tendsto_n_one_sub_exp.const_mul (3 * Real.exp (-2))
  have h62 : 3 * Real.exp (-2) * 2 = 6 * Real.exp (-2) := by ring
  rw [h62] at hmul
  apply hmul.congr'
  filter_upwards [eventually_atTop.mpr ⟨3, fun n hn => hn⟩] with n hn
  rw [decay_err_eq n hn]
  ring

/-- Doubling tends to infinity with `n`. -/
theorem decay_tendsto_two_n : Tendsto (fun n : ℕ => 2 * n) atTop atTop := by
  apply tendsto_atTop_mono (f := fun n : ℕ => n) (fun n => ?_) tendsto_id
  show n ≤ 2 * n
  omega

/-- Convergence of the run itself to the analytic value. -/
theorem decay_tendsto_final :
    Tendsto (fun n : ℕ => eulerDecayFinal n) atTop (𝓝 (3 * Real.exp (-2))) := by
  have h := (tendsto_one_plus_div_pow_exp (-2)).const_mul (3 : ℝ)
  apply h.congr'
  filter_upwards [eventually_atTop.mpr ⟨1, fun n hn => hn⟩] with n hn
  rw [eulerDecayFinal_eq n (by omega)]
  congr 2
  ring

/-- Claim C8.  For the notebook's decay problem `dy/dt = -2y`, `y0 = 3` on
uniform grids over `[0, 1]`, the integrator output at `t = 1` converges to
`3 * exp (-2)` as the step count increases, and doubling the step count
(halving the step size) asymptotically halves the global error: the error
ratio between the `2n`-step and the `n`-step runs tends to `1/2`
(first-order convergence of forward Euler). -/
theorem euler_decay_first_order :
    Tendsto (fun n : ℕ => eulerDecayFinal n) atTop (𝓝 (3 * Real.exp (-2))) ∧
      Tendsto (fun n : ℕ => eulerDecayErr (2 * n) / eulerDecayErr n) atTop (𝓝 (1 / 2)) := by
  refine ⟨decay_tendsto_final, ?_⟩
  have h2L : (2 : ℝ) * (6 * Real.exp (-2)) ≠ 0 := by positivity
  have hA2 : Tendsto (fun n : ℕ => ((2 * n : ℕ) : ℝ) * eulerDecayErr (2 * n)) atTop
      (𝓝 (6 * Real.exp (-2))) := decay_tendsto_n_err.comp decay_tendsto_two_n
  have hden : Tendsto (fun n : ℕ => 2 * ((n : ℝ) * eulerDecayErr n)) atTop
      (𝓝 (2 * (6 * Real.exp (-2)))) := decay_tendsto_n_err.const_mul 2
  have hdiv := hA2.div hden h2L
  have hval : (6 : ℝ) * Real.exp (-2) / (2 * (6 * Real.exp (-2))) = 1 / 2 := by
    field_simp
    ring
  rw [hval] at hdiv
  apply hdiv.congr'
  filter_upwards [eventually_atTop.mpr ⟨3, fun n hn => hn⟩] with n hn
  have hnpos : (0 : ℝ) < (n : ℝ) := by
    have h3 : (3 : ℝ) ≤ (n : ℝ) := by exact_mod_cast hn
    linarith
  simp only [Pi.div_apply]
  push_cast
  rw [show (2 : ℝ) * (n : ℝ) * eulerDecayErr (2 * n)
        = (2 * (n : ℝ)) * eulerDecayErr (2 * n) from by ring,
    show (2 : ℝ) * ((n : ℝ) * eulerDecayErr n) = (2 * (n : ℝ)) * eulerDecayErr n from by ring,
    mul_div_mul_left _ _ (by positivity : (2 : ℝ) * (n : ℝ) ≠ 0)]
